import Mathlib

/-!
# Verification of the knowledge-inbox RAG core

Shallow embedding of the retrieval pipeline of the knowledge-inbox service:
the chunking policy (`IngestionService.chunkText`), the in-memory vector
index (`VectorStore`), the keyword-search query service and the
vector-search query service, together with the ingestion path.

Modelling conventions:
* JS strings are `List Char`; JS string methods (`slice`, `trim`,
  `lastIndexOf`, `toLowerCase`, `split`) are modelled by the list
  functions below, restricted to the ASCII whitespace set actually
  relevant to the data handled by the service.
* JS numbers are modelled as exact rationals `ℚ` (IEEE-754 rounding is
  idealised away).  A cosine similarity `dot/(√normA·√normB)` is kept
  symbolically as the pair `(d, n)` with `n = normA*normB`, denoting the
  real number `d / √n`; the case `n = 0` (which forces `d = 0`) marks the
  IEEE computation `0/0 = NaN`.
* `Array.prototype.sort` with comparator `(a,b) => b.x - a.x` is a stable
  descending sort; it is modelled by `List.insertionSort` with a relation
  that holds on ties, which is likewise stable (ties keep original order).
* Thrown JS `Error`s are modelled with `Except`; an external provider
  (embedding service, answer generator) is an oracle function returning
  `Except`.
* The chunking loop of the source has no a-priori termination argument,
  so it is modelled with explicit fuel; `none` means the loop has not
  finished within the given fuel.
-/

/-! ## JS string primitives -/

/-- JS strings modelled as lists of characters. -/
abbrev Str := List Char

/-- The whitespace characters stripped by `String.prototype.trim` that can
occur in the service's data (ASCII subset of the JS WhiteSpace and
LineTerminator sets). -/
def isWs (c : Char) : Bool :=
  c == ' ' || c == '\t' || c == '\n' || c == '\r' || c == '\x0b' || c == '\x0c'

/-- Models `String.prototype.trim`: strip whitespace from both ends. -/
def trim (s : Str) : Str :=
  ((s.dropWhile isWs).reverse.dropWhile isWs).reverse

/-- Models `String.prototype.toLowerCase` (character-wise). -/
def toLowerStr (s : Str) : Str := s.map Char.toLower

/-- Helper for `lastIndexOf`: scan the list keeping the index of the last
occurrence seen so far (`-1` when none). -/
def lastIndexOfAux (c : Char) : Str → ℤ → ℤ → ℤ
  | [], _, best => best
  | x :: xs, i, best => lastIndexOfAux c xs (i + 1) (if x = c then i else best)

/-- Models `String.prototype.lastIndexOf` for a single-character needle:
index of the last occurrence, `-1` if absent. -/
def lastIndexOf (s : Str) (c : Char) : ℤ := lastIndexOfAux c s 0 (-1)

/-- Models `str.slice(a, b)` for `0 ≤ a ≤ b ≤ str.length` (the only way the
chunking loop uses it). -/
def jsSlice (s : Str) (a b : ℕ) : Str := (s.take b).drop a

/-! ## Chunking policy (`IngestionService.chunkText`) -/

/-- Chunking configuration of an `IngestionService` (token counts; the
source multiplies by 4 to approximate characters). -/
structure ChunkCfg where
  chunkSize : ℕ
  chunkOverlap : ℕ

/-- The configuration of the eager ingestion service
(`this.chunkSize = 500; this.chunkOverlap = 100`). -/
def cfgMain : ChunkCfg := ⟨500, 100⟩

/-- The `while (start < text.length)` loop of `chunkText`, with explicit
fuel (`none` = the loop did not finish within `fuel` iterations).  Each
iteration slices a window, optionally snaps it back to the last sentence
boundary, pushes the trimmed window, and advances `start` by
`chunk.length - overlapChars`, forcing `start = lastChunk.length + overlapChars`
whenever that advance would leave `start ≤ lastChunk.length`.
`start` is kept as a natural number: the transient JS value
`start + chunk.length - overlapChars` can be negative, but it is then
`≤` the (nonnegative) trimmed length, so the fallback fires in exactly
the same cases as with integer arithmetic. -/
def chunkLoop (cpc ov : ℕ) (text : Str) : ℕ → ℕ → List Str → Option (List Str)
  | 0, start, acc => if start < text.length then none else some acc
  | fuel + 1, start, acc =>
    if start < text.length then
      let e := min (start + cpc) text.length
      let chunk0 := jsSlice text start e
      let bp := max (lastIndexOf chunk0 '.') (lastIndexOf chunk0 '\n')
      let chunk := if e < text.length ∧ 2 * bp > (cpc : ℤ) then chunk0.take (bp + 1).toNat else chunk0
      let t := trim chunk
      let s1 := start + chunk.length - ov
      let start1 := if s1 ≤ t.length then t.length + ov else s1
      chunkLoop cpc ov text fuel start1 (acc ++ [t])
    else some acc

/-- Models `IngestionService.chunkText`: run the loop from `start = 0`, then drop
chunks that are empty after trimming (`chunks.filter(c => c.length > 0)`).
The fuel `text.length + 1` is immaterial for the claims below, which are
stated over `chunkLoop` with arbitrary fuel where needed. -/
def chunkText (cfg : ChunkCfg) (text : Str) : Option (List Str) :=
  (chunkLoop (4 * cfg.chunkSize) (4 * cfg.chunkOverlap) text (text.length + 1) 0 []).map
    (List.filter (fun c => 0 < c.length))

/-! ## Basic lemmas about the string primitives -/

theorem dropWhile_eq_self_of_all (p : Char → Bool) (s : Str) (h : ∀ x ∈ s, p x = false) :
    s.dropWhile p = s := by
  cases s with
  | nil => rfl
  | cons x xs => rw [List.dropWhile_cons, h x (List.mem_cons_self x xs)]; simp

theorem trim_of_no_ws (s : Str) (h : ∀ x ∈ s, isWs x = false) : trim s = s := by
  unfold trim
  rw [dropWhile_eq_self_of_all _ _ h,
    dropWhile_eq_self_of_all _ _ (fun x hx => h x (by simpa using hx)), List.reverse_reverse]

theorem trim_length_le (s : Str) : (trim s).length ≤ s.length := by
  unfold trim
  calc ((s.dropWhile isWs).reverse.dropWhile isWs).reverse.length
      = ((s.dropWhile isWs).reverse.dropWhile isWs).length := List.length_reverse _
    _ ≤ (s.dropWhile isWs).reverse.length := (List.dropWhile_sublist _).length_le
    _ = (s.dropWhile isWs).length := List.length_reverse _
    _ ≤ s.length := (List.dropWhile_sublist _).length_le

theorem lastIndexOfAux_no_match {c : Char} :
    ∀ (l : Str) (i best : ℤ), (∀ x ∈ l, x ≠ c) → lastIndexOfAux c l i best = best
  | [], _, _, _ => rfl
  | x :: xs, i, best, h => by
    rw [lastIndexOfAux, if_neg (h x (List.mem_cons_self x xs))]
    exact lastIndexOfAux_no_match xs (i + 1) best (fun y hy => h y (List.mem_cons_of_mem _ hy))

theorem lastIndexOf_no_match (s : Str) (c : Char) (h : ∀ x ∈ s, x ≠ c) :
    lastIndexOf s c = -1 :=
  lastIndexOfAux_no_match s 0 (-1) h

theorem trim_replicate_a (n : ℕ) : trim (List.replicate n 'a') = List.replicate n 'a' :=
  trim_of_no_ws _ (fun x hx => by rw [List.eq_of_mem_replicate hx]; rfl)

theorem lastIndexOf_replicate_a (n : ℕ) (c : Char) (hc : c ≠ 'a') :
    lastIndexOf (List.replicate n 'a') c = -1 :=
  lastIndexOf_no_match _ _ (fun x hx => by rw [List.eq_of_mem_replicate hx]; exact fun h => hc h.symm)

theorem jsSlice_replicate (n a b : ℕ) :
    jsSlice (List.replicate n 'a') a b = List.replicate (min b n - a) 'a' := by
  simp [jsSlice, List.take_replicate, List.drop_replicate]

/-- The loop exits immediately (with any fuel) once `start` has reached the
end of the text. -/
theorem chunkLoop_done (cpc ov : ℕ) (text : Str) (fuel start : ℕ) (acc : List Str)
    (h : ¬ start < text.length) : chunkLoop cpc ov text fuel start acc = some acc := by
  cases fuel with
  | zero => rw [chunkLoop, if_neg h]
  | succ f => rw [chunkLoop, if_neg h]

theorem lastIndexOf_replicate_dot (n : ℕ) : lastIndexOf (List.replicate n 'a') '.' = -1 :=
  lastIndexOf_replicate_a n _ (by decide)

theorem lastIndexOf_replicate_nl (n : ℕ) : lastIndexOf (List.replicate n 'a') '\n' = -1 :=
  lastIndexOf_replicate_a n _ (by decide)

/-- First iteration of the chunking loop on 2401 copies of `'a'` with the
eager configuration: the window `[0, 2000)` is pushed and the fallback rule
fires (`1600 ≤ 2000`), setting `start = 2000 + 400 = 2400`. -/
theorem chunkLoop_bug_step1 (f : ℕ) (acc : List Str) :
    chunkLoop 2000 400 (List.replicate 2401 'a') (f + 1) 0 acc =
      chunkLoop 2000 400 (List.replicate 2401 'a') f 2400 (acc ++ [List.replicate 2000 'a']) := by
  rw [chunkLoop, if_pos (by rw [List.length_replicate]; norm_num)]
  norm_num [jsSlice_replicate, lastIndexOf_replicate_dot, lastIndexOf_replicate_nl,
    trim_replicate_a, List.length_replicate, max_self]

/-- Second iteration: the window `[2400, 2401)` has length 1, so
`start` moves back to `2400 + 1 - 400 = 2001` and the fallback does not
fire (`2001 > 1`). -/
theorem trim_single_a : trim ['a'] = ['a'] := by decide

theorem chunkLoop_bug_step2 (f : ℕ) (acc : List Str) :
    chunkLoop 2000 400 (List.replicate 2401 'a') (f + 1) 2400 acc =
      chunkLoop 2000 400 (List.replicate 2401 'a') f 2001 (acc ++ [List.replicate 1 'a']) := by
  rw [chunkLoop, if_pos (by rw [List.length_replicate]; norm_num)]
  norm_num [jsSlice_replicate, lastIndexOf_replicate_dot, lastIndexOf_replicate_nl,
    trim_replicate_a, trim_single_a, List.length_replicate, max_self]

/-- From `start = 2001` the loop never terminates: the window
`[2001, 2401)` has length 400 = `overlapChars`, so `start` advances by
zero, and the fallback rule does not fire because `2001 > 400`. -/
theorem chunkLoop_bug_stuck (f : ℕ) : ∀ acc : List Str,
    chunkLoop 2000 400 (List.replicate 2401 'a') f 2001 acc = none := by
  induction f with
  | zero => intro acc; rw [chunkLoop, if_pos (by rw [List.length_replicate]; norm_num)]
  | succ f ih =>
    intro acc
    rw [chunkLoop, if_pos (by rw [List.length_replicate]; norm_num)]
    norm_num [jsSlice_replicate, lastIndexOf_replicate_dot, lastIndexOf_replicate_nl,
      trim_replicate_a, List.length_replicate, max_self]
    exact ih _

theorem jsSlice_full (s : Str) : jsSlice s 0 s.length = s := by
  simp [jsSlice]

/-- Claim C1: **refuted by the code** — on the input consisting of 2401
copies of `'a'`, with the eager configuration (`chunkSize = 500`,
`chunkOverlap = 100`, i.e. 2000/400 characters), the chunking loop never
terminates: no amount of fuel makes it finish, and `chunkText` returns
`none` (the JS loop runs forever).  The start offset reaches 2001 with a
remaining window of exactly `overlapChars` characters, advances by zero,
and the fallback rule does not fire because `2001 > 400`. -/
theorem c1_chunkText_nonterminating :
    (∀ fuel : ℕ, chunkLoop (4 * cfgMain.chunkSize) (4 * cfgMain.chunkOverlap)
        (List.replicate 2401 'a') fuel 0 [] = none) ∧
    chunkText cfgMain (List.replicate 2401 'a') = none := by
  have key : ∀ fuel : ℕ, ∀ acc : List Str,
      chunkLoop 2000 400 (List.replicate 2401 'a') fuel 0 acc = none := by
    intro fuel
    match fuel with
    | 0 => intro acc; rw [chunkLoop, if_pos (by rw [List.length_replicate]; norm_num)]
    | 1 =>
      intro acc
      rw [chunkLoop_bug_step1, chunkLoop, if_pos (by rw [List.length_replicate]; norm_num)]
    | (f + 2) =>
      intro acc
      rw [chunkLoop_bug_step1, chunkLoop_bug_step2]
      exact chunkLoop_bug_stuck f _
  refine ⟨fun fuel => key fuel [], ?_⟩
  unfold chunkText
  simp only [List.length_replicate]
  rw [show (4 * cfgMain.chunkSize) = 2000 from rfl, show (4 * cfgMain.chunkOverlap) = 400 from rfl,
    key 2402 []]
  rfl

/-- One full pass of the loop over a text shorter than a single window:
the whole text is the window, no boundary snapping happens, the trimmed
text is pushed, and the loop stops provided the amount of boundary
whitespace is at most `overlapChars`. -/
theorem chunkLoop_short (cpc ov : ℕ) (text : Str) (fuel : ℕ) (acc : List Str)
    (hlen : text.length < cpc) (ht : 0 < (trim text).length)
    (hov : text.length ≤ ov + (trim text).length) :
    chunkLoop cpc ov text (fuel + 1) 0 acc = some (acc ++ [trim text]) := by
  have hlen0 : 0 < text.length := lt_of_lt_of_le ht (trim_length_le text)
  rw [chunkLoop, if_pos hlen0]
  simp only [zero_add, min_eq_right hlen.le, jsSlice_full, lt_irrefl, false_and, if_false]
  rw [if_pos (by omega)]
  exact chunkLoop_done _ _ _ _ _ _ (by omega)

/-- Claim C8 (amended): for every text shorter than one chunk window
(`4 * chunkSize` characters) whose trimmed form is non-empty and whose
boundary whitespace (length minus trimmed length) is at most
`overlapChars`, `chunkText` returns exactly one chunk, equal to the
trimmed input. -/
theorem c8_short_text_single_chunk (cfg : ChunkCfg) (text : Str)
    (hlen : text.length < 4 * cfg.chunkSize)
    (ht : 0 < (trim text).length)
    (hov : text.length ≤ 4 * cfg.chunkOverlap + (trim text).length) :
    chunkText cfg text = some [trim text] := by
  unfold chunkText
  rw [chunkLoop_short _ _ _ _ _ hlen ht hov]
  simp [List.filter_cons, ht]

/-- Witness for the amended claim C8 at the concrete input `"  hi"` with
the eager configuration. -/
theorem c8_short_text_single_chunk_witness :
    ([' ', ' ', 'h', 'i'] : Str).length < 4 * cfgMain.chunkSize ∧
    0 < (trim [' ', ' ', 'h', 'i']).length ∧
    ([' ', ' ', 'h', 'i'] : Str).length ≤ 4 * cfgMain.chunkOverlap + (trim [' ', ' ', 'h', 'i']).length ∧
    chunkText cfgMain [' ', ' ', 'h', 'i'] = some [trim [' ', ' ', 'h', 'i']] :=
  ⟨by decide, by decide, by decide,
    c8_short_text_single_chunk cfgMain _ (by decide) (by decide) (by decide)⟩

/-- Counterexample to claim C8 as stated: the input `" "` (a single space)
is shorter than one chunk window, yet `chunkText` returns the empty list
of chunks, not the single chunk equal to the trimmed input. -/
theorem c8_counterexample :
    chunkText cfgMain [' '] = some [] ∧ ∀ c : Str, chunkText cfgMain [' '] ≠ some [c] := by
  refine ⟨by decide, ?_⟩
  intro c h
  rw [show chunkText cfgMain [' '] = some [] from by decide] at h
  simp at h

/-! ## Vector index (`VectorStore`, exact cosine backend) -/

/-- The accumulator loop of `cosineSimilarity`: dot product of two vectors
(the source iterates over equal-length arrays; extra elements of a longer
argument never occur because every stored vector and query passed the
dimension check). -/
def dotQ : List ℚ → List ℚ → ℚ
  | [], _ => 0
  | _, [] => 0
  | a :: as, b :: bs => a * b + dotQ as bs

theorem dotQ_self_nonneg (v : List ℚ) : 0 ≤ dotQ v v := by
  induction v with
  | nil => exact le_refl 0
  | cons x xs ih => rw [dotQ]; nlinarith [mul_self_nonneg x]

theorem dotQ_comm : ∀ a b : List ℚ, dotQ a b = dotQ b a
  | [], [] => rfl
  | [], _ :: _ => rfl
  | _ :: _, [] => rfl
  | x :: xs, y :: ys => by rw [dotQ, dotQ, dotQ_comm xs ys, mul_comm]

theorem dotQ_eq_zero_of_self_eq_zero : ∀ (v : List ℚ), dotQ v v = 0 → ∀ w, dotQ v w = 0
  | [], _, w => by cases w <;> rfl
  | x :: xs, h, w => by
    rw [dotQ] at h
    have hx2 : 0 ≤ x * x := mul_self_nonneg x
    have hxs : 0 ≤ dotQ xs xs := dotQ_self_nonneg xs
    have hx : x = 0 := mul_self_eq_zero.mp (by linarith)
    have hxs0 : dotQ xs xs = 0 := by linarith
    cases w with
    | nil => rfl
    | cons y ys => rw [dotQ, hx, dotQ_eq_zero_of_self_eq_zero xs hxs0 ys]; ring

/-- A cosine similarity as the source computes it
(`dotProduct / (Math.sqrt(normA) * Math.sqrt(normB))`), kept symbolically:
`d` is the dot product and `n = normA * normB` is the product of the two
squared norms, so the denoted real value is `d / √n`.  The invariants
record that `n` is a product of sums of squares and that a vanishing
denominator forces a vanishing dot product — i.e. the IEEE value is then
`0/0 = NaN`.  `n = 0` is the model's marker for that NaN. -/
structure SimVal where
  d : ℚ
  n : ℚ
  n_nonneg : 0 ≤ n
  nan_zero : n = 0 → d = 0

/-- Models `VectorStore.cosineSimilarity(a, b)`. -/
def cosineSimilarity (a b : List ℚ) : SimVal :=
  ⟨dotQ a b, dotQ a a * dotQ b b,
    mul_nonneg (dotQ_self_nonneg a) (dotQ_self_nonneg b),
    fun h => by
      rcases mul_eq_zero.mp h with h1 | h1
      · exact dotQ_eq_zero_of_self_eq_zero a h1 b
      · rw [dotQ_comm a b]; exact dotQ_eq_zero_of_self_eq_zero b h1 a⟩

/-- The real number denoted by a `SimVal` (the value the source's
floating-point computation approximates).  With Lean's total division the
NaN marker (`n = 0`, hence `d = 0`) denotes the junk value `0`. -/
noncomputable def SimVal.val (s : SimVal) : ℝ := (s.d : ℝ) / Real.sqrt (s.n : ℝ)

/-- Decidable comparison of two denoted similarities, by sign analysis and
squaring; proven below to agree with `≤` on the denoted real values.
The NaN marker (`n = 0`, junk value 0) is thereby ordered as the number 0,
whereas the JS comparator `b.similarity - a.similarity` yields NaN on such
an entry, which `Array.prototype.sort` treats as a tie (keeping the stable
order).  On an index mixing NaN and real similarities the modelled ranking
can therefore differ from the program; every ranking theorem below carries
nonzero-norm hypotheses confining it to the NaN-free regime, where the two
agree (an all-NaN index keeps the stored order in both). -/
def SimVal.sle (x y : SimVal) : Bool :=
  if x.d ≤ 0 ∧ 0 ≤ y.d then true
  else if 0 < x.d ∧ 0 < y.d then decide (x.d ^ 2 * y.n ≤ y.d ^ 2 * x.n)
  else if x.d < 0 ∧ y.d < 0 then decide (y.d ^ 2 * x.n ≤ x.d ^ 2 * y.n)
  else false

theorem SimVal.val_zero_d (x : SimVal) (h : x.d = 0) : x.val = 0 := by
  unfold SimVal.val; rw [h]; simp

theorem SimVal.npos_of_d_ne (x : SimVal) (h : x.d ≠ 0) : (0 : ℝ) < (x.n : ℝ) := by
  have hn : x.n ≠ 0 := fun hn => h (x.nan_zero hn)
  have := lt_of_le_of_ne x.n_nonneg (Ne.symm hn)
  exact_mod_cast this

theorem SimVal.val_pos (x : SimVal) (h : 0 < x.d) : 0 < x.val :=
  div_pos (by exact_mod_cast h) (Real.sqrt_pos.mpr (x.npos_of_d_ne (ne_of_gt h)))

theorem SimVal.val_neg (x : SimVal) (h : x.d < 0) : x.val < 0 :=
  div_neg_of_neg_of_pos (by exact_mod_cast h) (Real.sqrt_pos.mpr (x.npos_of_d_ne (ne_of_lt h)))

theorem SimVal.val_nonneg (x : SimVal) (h : 0 ≤ x.d) : 0 ≤ x.val :=
  div_nonneg (by exact_mod_cast h) (Real.sqrt_nonneg _)

theorem SimVal.val_nonpos (x : SimVal) (h : x.d ≤ 0) : x.val ≤ 0 := by
  rcases lt_or_eq_of_le h with h1 | h1
  · exact (x.val_neg h1).le
  · exact (x.val_zero_d h1).le

theorem SimVal.sq_helper (x y : SimVal) (hx : 0 < x.d) (hy : 0 < y.d) :
    x.val ≤ y.val ↔ x.d ^ 2 * y.n ≤ y.d ^ 2 * x.n := by
  have hxn : (0 : ℝ) < (x.n : ℝ) := x.npos_of_d_ne (ne_of_gt hx)
  have hyn : (0 : ℝ) < (y.n : ℝ) := y.npos_of_d_ne (ne_of_gt hy)
  have hsx : (0 : ℝ) < Real.sqrt (x.n : ℝ) := Real.sqrt_pos.mpr hxn
  have hsy : (0 : ℝ) < Real.sqrt (y.n : ℝ) := Real.sqrt_pos.mpr hyn
  have hxd : (0 : ℝ) ≤ (x.d : ℝ) := by exact_mod_cast hx.le
  have hyd : (0 : ℝ) ≤ (y.d : ℝ) := by exact_mod_cast hy.le
  unfold SimVal.val
  rw [div_le_div_iff₀ hsx hsy,
    mul_self_le_mul_self_iff (mul_nonneg hxd hsy.le) (mul_nonneg hyd hsx.le)]
  have e1 : (x.d : ℝ) * Real.sqrt (y.n : ℝ) * ((x.d : ℝ) * Real.sqrt (y.n : ℝ))
      = (x.d : ℝ) ^ 2 * (y.n : ℝ) := by
    rw [show (x.d : ℝ) * Real.sqrt (y.n : ℝ) * ((x.d : ℝ) * Real.sqrt (y.n : ℝ))
        = (x.d : ℝ) ^ 2 * (Real.sqrt (y.n : ℝ) * Real.sqrt (y.n : ℝ)) by ring,
      Real.mul_self_sqrt hyn.le]
  have e2 : (y.d : ℝ) * Real.sqrt (x.n : ℝ) * ((y.d : ℝ) * Real.sqrt (x.n : ℝ))
      = (y.d : ℝ) ^ 2 * (x.n : ℝ) := by
    rw [show (y.d : ℝ) * Real.sqrt (x.n : ℝ) * ((y.d : ℝ) * Real.sqrt (x.n : ℝ))
        = (y.d : ℝ) ^ 2 * (Real.sqrt (x.n : ℝ) * Real.sqrt (x.n : ℝ)) by ring,
      Real.mul_self_sqrt hxn.le]
  rw [e1, e2]
  exact_mod_cast Iff.rfl

/-- Negating the dot product negates the denoted value. -/
def SimVal.negd (x : SimVal) : SimVal :=
  ⟨-x.d, x.n, x.n_nonneg, fun h => by rw [x.nan_zero h]; ring⟩

theorem SimVal.val_negd (x : SimVal) : x.negd.val = -x.val := by
  unfold SimVal.val SimVal.negd
  push_cast
  rw [neg_div]

theorem SimVal.sq_helper_neg (x y : SimVal) (hx : x.d < 0) (hy : y.d < 0) :
    x.val ≤ y.val ↔ y.d ^ 2 * x.n ≤ x.d ^ 2 * y.n := by
  have key := SimVal.sq_helper y.negd x.negd (by simpa [SimVal.negd] using hy)
    (by simpa [SimVal.negd] using hx)
  rw [SimVal.val_negd, SimVal.val_negd, neg_le_neg_iff] at key
  simpa [SimVal.negd, neg_sq] using key

/-- The decidable comparator `SimVal.sle` coincides with `≤` on the
denoted real similarity values. -/
theorem SimVal.sle_iff (x y : SimVal) : x.sle y = true ↔ x.val ≤ y.val := by
  unfold SimVal.sle
  by_cases h1 : x.d ≤ 0 ∧ 0 ≤ y.d
  · rw [if_pos h1]
    exact iff_of_true rfl (le_trans (x.val_nonpos h1.1) (y.val_nonneg h1.2))
  · rw [if_neg h1]
    by_cases h2 : 0 < x.d ∧ 0 < y.d
    · rw [if_pos h2, decide_eq_true_iff]
      exact (SimVal.sq_helper x y h2.1 h2.2).symm
    · rw [if_neg h2]
      by_cases h3 : x.d < 0 ∧ y.d < 0
      · rw [if_pos h3, decide_eq_true_iff]
        exact (SimVal.sq_helper_neg x y h3.1 h3.2).symm
      · rw [if_neg h3]
        apply iff_of_false (by simp)
        push_neg at h1 h2 h3
        rw [not_le]
        rcases lt_trichotomy x.d 0 with hx | hx | hx
        · exact absurd (h3 hx) (not_le.mpr (h1 hx.le))
        · have hy : y.d < 0 := h1 (le_of_eq hx)
          rw [x.val_zero_d hx]
          exact y.val_neg hy
        · exact lt_of_le_of_lt (y.val_nonpos (h2 hx)) (x.val_pos hx)

/-- Errors raised inside the core: a thrown dimension-mismatch `Error`
(messages `Embedding dimension mismatch: expected E, got G` and
`Query embedding dimension mismatch: ...` in the source) or a failure of
an external provider propagated with its message. -/
inductive SvcError
  | dimensionMismatch (expected got : ℕ)
  | provider (msg : String)
deriving DecidableEq

/-- One element of `this.vectors` (`{ id, chunkId, embedding }`). -/
structure VSEntry where
  id : ℕ
  chunkId : String
  embedding : List ℚ

/-- The in-memory `VectorStore` (constructor stores `dimensions` and an
empty `vectors` array). -/
structure VectorStore where
  dimensions : ℕ
  vectors : List VSEntry

/-- A fresh `new VectorStore(dimensions)`. -/
def VectorStore.init (dimensions : ℕ) : VectorStore := ⟨dimensions, []⟩

/-- Models `VectorStore.addEmbedding(chunkId, embedding)`: dimension check, then
push `{ id: vectors.length, chunkId, embedding }` and return the id. -/
def VectorStore.addEmbedding (st : VectorStore) (chunkId : String) (embedding : List ℚ) :
    Except SvcError (VectorStore × ℕ) :=
  if embedding.length ≠ st.dimensions then
    .error (.dimensionMismatch st.dimensions embedding.length)
  else
    .ok ({ st with vectors := st.vectors ++ [⟨st.vectors.length, chunkId, embedding⟩] },
      st.vectors.length)

/-- Modelled from the spec: `hasEmbedding(chunkId) -> bool`, the existence
check used by the lazy-backfill query service (query.js calls
`this.vectorStore.hasEmbedding(chunk.id)`, but no `VectorStore` variant
under src/ defines the method; §4.2 specifies it as an existence check
for the chunk id). -/
def VectorStore.hasEmbedding (st : VectorStore) (chunkId : String) : Bool :=
  st.vectors.any (fun e => e.chunkId == chunkId)

/-- Models `VectorStore.getSize()`. -/
def VectorStore.getSize (st : VectorStore) : ℕ := st.vectors.length

/-- One element of the sequence returned by `search`
(`{ chunkId, similarity }`; the exact-search backend reports no
`distance` field). -/
structure SearchResult where
  chunkId : String
  similarity : SimVal

/-- The ordering used to model
`similarities.sort((a, b) => b.similarity - a.similarity)`:
`a` may precede `b` when `a`'s similarity is at least `b`'s.  The relation
holds on ties, so `insertionSort` keeps the original order of tied
elements, like the (stable) JS sort. -/
def searchRel (a b : SearchResult) : Prop := SimVal.sle b.similarity a.similarity = true

instance : DecidableRel searchRel := fun a b => by
  unfold searchRel; infer_instance

instance : IsTotal SearchResult searchRel :=
  ⟨fun a b => by
    unfold searchRel
    rw [SimVal.sle_iff, SimVal.sle_iff]
    exact (le_total b.similarity.val a.similarity.val).imp id id⟩

instance : IsTrans SearchResult searchRel :=
  ⟨fun a b c hab hbc => by
    unfold searchRel at hab hbc ⊢
    rw [SimVal.sle_iff] at hab hbc ⊢
    exact le_trans hbc hab⟩

/-- Models `VectorStore.search(queryEmbedding, k)`: empty-index check first, then
the dimension check, then map every stored vector to its cosine
similarity against the query, sort by descending similarity (stable) and
take the first `k`. -/
def VectorStore.search (st : VectorStore) (queryEmbedding : List ℚ) (k : ℕ) :
    Except SvcError (List SearchResult) :=
  if st.vectors.length = 0 then .ok []
  else if queryEmbedding.length ≠ st.dimensions then
    .error (.dimensionMismatch st.dimensions queryEmbedding.length)
  else
    .ok (((st.vectors.map (fun v => SearchResult.mk v.chunkId
        (cosineSimilarity queryEmbedding v.embedding))).insertionSort searchRel).take k)

/-- Claim C2 (with `hasEmbedding` modelled from the spec, see
`VectorStore.hasEmbedding`): for a chunk id with no entry in the index,
`hasEmbedding` returns `false`; after a successful `addEmbedding` for that
id it returns `true`; and re-adding an embedding for the same chunk id
with a new vector increases `getSize()` by exactly one (duplicates are
accepted, not deduplicated). -/
theorem c2_hasEmbedding_addEmbedding :
    (∀ (st : VectorStore) (cid : String),
      (∀ e ∈ st.vectors, e.chunkId ≠ cid) → st.hasEmbedding cid = false) ∧
    (∀ (st : VectorStore) (cid : String) (v : List ℚ) (st' : VectorStore) (eid : ℕ),
      st.addEmbedding cid v = .ok (st', eid) → st'.hasEmbedding cid = true) ∧
    (∀ (st : VectorStore) (cid : String) (v w : List ℚ) (st' st'' : VectorStore) (e1 e2 : ℕ),
      st.addEmbedding cid v = .ok (st', e1) → st'.addEmbedding cid w = .ok (st'', e2) →
      st''.getSize = st'.getSize + 1) := by
  refine ⟨?_, ?_, ?_⟩
  · intro st cid h
    unfold VectorStore.hasEmbedding
    rw [List.any_eq_false]
    intro e he
    simpa using h e he
  · intro st cid v st' eid h
    unfold VectorStore.addEmbedding at h
    split at h
    · exact Except.noConfusion h
    · injection h with h2
      injection h2 with h3 h4
      rw [← h3]
      unfold VectorStore.hasEmbedding
      simp
  · intro st cid v w st' st'' e1 e2 h1 h2
    unfold VectorStore.addEmbedding at h2
    split at h2
    · exact Except.noConfusion h2
    · injection h2 with h3
      injection h3 with h4 h5
      rw [← h4]
      unfold VectorStore.getSize
      simp

/-- Witness for claim C2 at a fresh two-dimensional index and chunk id
`"c"`: `hasEmbedding` is `false` before the add and `true` after, and a
duplicate add for the same id grows the size by one. -/
theorem c2_hasEmbedding_addEmbedding_witness :
    ((VectorStore.init 2).hasEmbedding "c" = false) ∧
    ∃ st1 e1, (VectorStore.init 2).addEmbedding "c" [1, 0] = .ok (st1, e1) ∧
      st1.hasEmbedding "c" = true ∧
      ∃ st2 e2, st1.addEmbedding "c" [0, 1] = .ok (st2, e2) ∧ st2.getSize = st1.getSize + 1 := by
  refine ⟨c2_hasEmbedding_addEmbedding.1 _ "c" (by simp [VectorStore.init]), _, _, rfl, ?_, _, _, rfl, ?_⟩
  · exact c2_hasEmbedding_addEmbedding.2.1 (VectorStore.init 2) "c" [1, 0] _ _ rfl
  · exact c2_hasEmbedding_addEmbedding.2.2 (VectorStore.init 2) "c" [1, 0] [0, 1] _ _ _ _ rfl rfl

/-- Counterexample to claim C3 as stated: on an *empty* index, `search`
with a wrong-length query vector (length 1 against configured dimension 2)
returns the empty sequence successfully instead of failing with
`DimensionMismatch` — the empty-index check precedes the dimension check. -/
theorem c3_counterexample :
    (VectorStore.init 2).search [1] 5 = .ok [] ∧
    ∀ e : SvcError, (VectorStore.init 2).search [1] 5 ≠ .error e := by
  refine ⟨rfl, ?_⟩
  intro e h
  rw [show (VectorStore.init 2).search [1] 5 = .ok [] from rfl] at h
  exact Except.noConfusion h

/-- Claim C3 (amended): `addEmbedding` with a wrong-length vector always
fails with `DimensionMismatch` (the model returns no new store, i.e. the
index is unchanged, matching the source which throws before pushing);
`search` with a wrong-length query fails with `DimensionMismatch` whenever
the index is non-empty; on an empty index `search` returns the empty
sequence even for wrong-length query vectors. -/
theorem c3_dimension_mismatch :
    (∀ (st : VectorStore) (cid : String) (v : List ℚ), v.length ≠ st.dimensions →
      st.addEmbedding cid v = .error (.dimensionMismatch st.dimensions v.length)) ∧
    (∀ (st : VectorStore) (q : List ℚ) (k : ℕ), st.vectors ≠ [] → q.length ≠ st.dimensions →
      st.search q k = .error (.dimensionMismatch st.dimensions q.length)) ∧
    (∀ (dims : ℕ) (q : List ℚ) (k : ℕ), (VectorStore.init dims).search q k = .ok []) := by
  refine ⟨?_, ?_, ?_⟩
  · intro st cid v h
    unfold VectorStore.addEmbedding
    rw [if_pos h]
  · intro st q k hne h
    unfold VectorStore.search
    rw [if_neg (by simpa [List.length_eq_zero] using hne), if_pos h]
  · intro dims q k
    rfl

/-- Witness for the amended claim C3: a length-1 vector against a
two-dimensional index is rejected by `addEmbedding`, and by `search` once
the index holds one embedding. -/
theorem c3_dimension_mismatch_witness :
    (([1] : List ℚ).length ≠ (VectorStore.init 2).dimensions) ∧
    ((VectorStore.init 2).addEmbedding "c" [1] = .error (.dimensionMismatch 2 1)) ∧
    ∃ st1 e1, (VectorStore.init 2).addEmbedding "c" [1, 0] = .ok (st1, e1) ∧
      st1.search [1] 5 = .error (.dimensionMismatch 2 1) := by
  refine ⟨by decide, ?_, _, _, rfl, ?_⟩
  · exact c3_dimension_mismatch.1 (VectorStore.init 2) "c" [1] (by decide)
  · exact c3_dimension_mismatch.2.1 _ [1] 5 (by simp) (by decide)

/-- Counterexample to claim C4 as stated: with a stored all-zero vector of
the configured dimension, a dimension-correct search succeeds but the
returned record's similarity is the IEEE computation `0/0 = NaN`
(denominator `n = 0` in the model) — not a well-defined real cosine
similarity, so the results are not a sequence of records sorted by real
similarity values.  (The exact-search backend also reports no `distance`
field, visible from the `SearchResult` type.) -/
theorem c4_counterexample :
    ∃ st1 e1 rs, (VectorStore.init 2).addEmbedding "c" [0, 0] = .ok (st1, e1) ∧
      st1.search [1, 0] 5 = .ok rs ∧
      ¬ ∀ r ∈ rs, r.similarity.n ≠ 0 := by
  refine ⟨_, _, _, rfl, rfl, ?_⟩
  intro hall
  exact hall ⟨"c", cosineSimilarity [1, 0] [0, 0]⟩ (List.mem_singleton_self _)
    (by norm_num [cosineSimilarity, dotQ])

/-- Claim C4 (amended): for every index state and every dimension-correct
query vector, provided the query and all stored vectors have nonzero
(squared) norm, `search` succeeds with a sequence of
`{chunkId, similarity}` records of length at most `min(k, getSize())`,
each similarity a well-defined real number, sorted by non-increasing
cosine similarity; and on an empty index `search` returns the empty
sequence for every query vector and every `k`. -/
theorem c4_search_sorted :
    (∀ (st : VectorStore) (q : List ℚ) (k : ℕ),
      q.length = st.dimensions →
      (0 : ℚ) < dotQ q q →
      (∀ e ∈ st.vectors, (0 : ℚ) < dotQ e.embedding e.embedding) →
      ∃ rs, st.search q k = .ok rs ∧
        rs.length ≤ min k st.getSize ∧
        (∀ r ∈ rs, r.similarity.n ≠ 0) ∧
        (rs.map (fun r => r.similarity.val)).Sorted (· ≥ ·)) ∧
    (∀ (dims : ℕ) (q : List ℚ) (k : ℕ), (VectorStore.init dims).search q k = .ok []) := by
  constructor
  · intro st q k hq hq0 hv0
    by_cases hemp : st.vectors.length = 0
    · refine ⟨[], ?_, by simp, by simp, by simp⟩
      unfold VectorStore.search
      rw [if_pos hemp]
    · unfold VectorStore.search
      rw [if_neg hemp, if_neg (by simp [hq])]
      refine ⟨_, rfl, ?_, ?_, ?_⟩
      · rw [List.length_take, List.length_insertionSort, List.length_map]
        exact le_refl _
      · intro r hr
        have hr2 := List.mem_of_mem_take hr
        rw [List.mem_insertionSort] at hr2
        obtain ⟨v, hv, rfl⟩ := List.mem_map.mp hr2
        show dotQ q q * dotQ v.embedding v.embedding ≠ 0
        exact ne_of_gt (mul_pos hq0 (hv0 v hv))
      · have hs : ((st.vectors.map (fun v => SearchResult.mk v.chunkId
            (cosineSimilarity q v.embedding))).insertionSort searchRel).Sorted searchRel :=
          List.sorted_insertionSort _ _
        have hs2 : (((st.vectors.map (fun v => SearchResult.mk v.chunkId
            (cosineSimilarity q v.embedding))).insertionSort searchRel).take k).Sorted searchRel :=
          hs.sublist (List.take_sublist k _)
        exact hs2.map _ (fun a b hab => (SimVal.sle_iff _ _).mp hab)
  · intro dims q k
    rfl

/-- Witness for the amended claim C4 at a one-entry index holding `[3, 4]`
and the query `[1, 0]`. -/
theorem c4_search_sorted_witness :
    (([1, 0] : List ℚ).length = (VectorStore.mk 2 [⟨0, "v", [3, 4]⟩]).dimensions) ∧
    ((0 : ℚ) < dotQ [1, 0] [1, 0]) ∧
    (∀ e ∈ (VectorStore.mk 2 [⟨0, "v", [3, 4]⟩]).vectors,
      (0 : ℚ) < dotQ e.embedding e.embedding) ∧
    ∃ rs, (VectorStore.mk 2 [⟨0, "v", [3, 4]⟩]).search [1, 0] 5 = .ok rs ∧
      rs.length ≤ min 5 (VectorStore.mk 2 [⟨0, "v", [3, 4]⟩]).getSize ∧
      (∀ r ∈ rs, r.similarity.n ≠ 0) ∧
      (rs.map (fun r => r.similarity.val)).Sorted (· ≥ ·) := by
  have h1 : ([1, 0] : List ℚ).length = (VectorStore.mk 2 [⟨0, "v", [3, 4]⟩]).dimensions := rfl
  have h2 : (0 : ℚ) < dotQ [1, 0] [1, 0] := by norm_num [dotQ]
  have h3 : ∀ e ∈ (VectorStore.mk 2 [⟨0, "v", [3, 4]⟩]).vectors,
      (0 : ℚ) < dotQ e.embedding e.embedding := by
    intro e he
    rw [show (VectorStore.mk 2 [⟨0, "v", [3, 4]⟩]).vectors = [⟨0, "v", [3, 4]⟩] from rfl,
      List.mem_singleton] at he
    subst he
    norm_num [dotQ]
  exact ⟨h1, h2, h3, c4_search_sorted.1 _ _ 5 h1 h2 h3⟩

/-- Cosine self-similarity is exactly 1 in real arithmetic for a vector
with nonzero squared norm (the floating-point source computes `≈ 1.0`). -/
theorem cosineSimilarity_self_val (v : List ℚ) (h : 0 < dotQ v v) :
    (cosineSimilarity v v).val = 1 := by
  unfold cosineSimilarity SimVal.val
  show ((dotQ v v : ℚ) : ℝ) / Real.sqrt (((dotQ v v * dotQ v v : ℚ) : ℝ)) = 1
  have hpos : (0 : ℝ) < ((dotQ v v : ℚ) : ℝ) := by exact_mod_cast h
  rw [show (((dotQ v v * dotQ v v : ℚ)) : ℝ) = ((dotQ v v : ℚ) : ℝ) * ((dotQ v v : ℚ) : ℝ) by
    push_cast; ring]
  rw [Real.sqrt_mul_self hpos.le]
  exact div_self (ne_of_gt hpos)

/-- If every element of `l` has similarity strictly below that of `x`,
then the stable descending sort of `l ++ [x]` starts with `x`. -/
theorem insertionSort_strict_max_head (l : List SearchResult) (x : SearchResult)
    (hlt : ∀ y ∈ l, y.similarity.val < x.similarity.val) :
    ∃ rest, (l ++ [x]).insertionSort searchRel = x :: rest := by
  have hperm := List.perm_insertionSort searchRel (l ++ [x])
  have hsorted := List.sorted_insertionSort searchRel (l ++ [x])
  have hne : (l ++ [x]).insertionSort searchRel ≠ [] := by
    intro h
    have hlen := hperm.length_eq
    rw [h] at hlen
    simp at hlen
  obtain ⟨r, rest, hcons⟩ := List.exists_cons_of_ne_nil hne
  refine ⟨rest, ?_⟩
  rw [hcons]
  have hx_mem : x ∈ r :: rest := by
    rw [← hcons]
    exact hperm.mem_iff.mpr (by simp)
  have hr_mem : r ∈ l ++ [x] := hperm.mem_iff.mp (by rw [hcons]; simp)
  rw [hcons] at hsorted
  have hhead : ∀ y ∈ rest, y.similarity.val ≤ r.similarity.val := by
    intro y hy
    exact (SimVal.sle_iff _ _).mp ((List.pairwise_cons.mp hsorted).1 y hy)
  have hxr : x.similarity.val ≤ r.similarity.val := by
    rcases List.mem_cons.mp hx_mem with h | h
    · rw [h]
    · exact hhead x h
  rcases List.mem_append.mp hr_mem with h | h
  · exact absurd (lt_of_le_of_lt hxr (hlt r h)) (lt_irrefl _)
  · rw [List.mem_singleton] at h
    rw [h]

/-- Claim C7 (amended): for every index state whose stored vectors all
have nonzero norm, every chunk id, and every dimension-correct vector `v`
of nonzero norm whose cosine similarity with each stored vector is
strictly below 1, `addEmbedding(chunkId, v)` followed by `search(v, k)`
with `k ≥ 1` returns that chunk ranked first with similarity exactly 1 in
the exact-arithmetic model of the floating-point computation, and every
returned similarity is well-defined (no NaN).  The nonzero-norm
hypotheses confine the statement to the regime where the modelled
comparator agrees with the JS sort: a stored zero-norm vector would make
the comparator receive NaN, which the JS sort treats as a tie, keeping
the stored entry ahead of the new chunk. -/
theorem c7_self_search_first (st : VectorStore) (cid : String) (v : List ℚ) (k : ℕ)
    (hv : v.length = st.dimensions) (hk : 1 ≤ k)
    (hvn : (0 : ℚ) < dotQ v v)
    (hstored : ∀ e ∈ st.vectors, (0 : ℚ) < dotQ e.embedding e.embedding)
    (hlt : ∀ e ∈ st.vectors, (cosineSimilarity v e.embedding).val < 1) :
    ∃ st' eid r rest, st.addEmbedding cid v = .ok (st', eid) ∧
      st'.search v k = .ok (r :: rest) ∧ r.chunkId = cid ∧ r.similarity.val = 1 ∧
      ∀ x ∈ r :: rest, x.similarity.n ≠ 0 := by
  have hxval : (cosineSimilarity v v).val = 1 := cosineSimilarity_self_val v hvn
  have hadd : st.addEmbedding cid v =
      .ok ({ st with vectors := st.vectors ++ [⟨st.vectors.length, cid, v⟩] },
        st.vectors.length) := by
    unfold VectorStore.addEmbedding
    rw [if_neg (by simp [hv])]
  have hlt2 : ∀ y ∈ st.vectors.map
      (fun e => SearchResult.mk e.chunkId (cosineSimilarity v e.embedding)),
      y.similarity.val < (SearchResult.mk cid (cosineSimilarity v v)).similarity.val := by
    intro y hy
    obtain ⟨e, he, rfl⟩ := List.mem_map.mp hy
    show (cosineSimilarity v e.embedding).val < (cosineSimilarity v v).val
    rw [hxval]
    exact hlt e he
  obtain ⟨rest, hsort⟩ := insertionSort_strict_max_head _ _ hlt2
  obtain ⟨k1, rfl⟩ : ∃ k1, k = k1 + 1 := ⟨k - 1, by omega⟩
  refine ⟨_, _, ⟨cid, cosineSimilarity v v⟩, rest.take k1, hadd, ?_, rfl, hxval, ?_⟩
  · unfold VectorStore.search
    rw [if_neg (by simp), if_neg (by simp [hv])]
    rw [show ({ st with vectors := st.vectors ++ [⟨st.vectors.length, cid, v⟩]} :
        VectorStore).vectors = st.vectors ++ [⟨st.vectors.length, cid, v⟩] from rfl]
    rw [List.map_append]
    rw [show (List.map (fun e => SearchResult.mk e.chunkId (cosineSimilarity v e.embedding))
        [(⟨st.vectors.length, cid, v⟩ : VSEntry)]) = [⟨cid, cosineSimilarity v v⟩] from rfl]
    rw [hsort, List.take_succ_cons]
  · intro x hx
    have hx2 : x ∈ List.insertionSort searchRel
        (List.map (fun e : VSEntry => SearchResult.mk e.chunkId (cosineSimilarity v e.embedding))
          st.vectors ++ [SearchResult.mk cid (cosineSimilarity v v)]) := by
      rw [hsort]
      rcases List.mem_cons.mp hx with h | h
      · rw [h]
        exact List.mem_cons_self _ _
      · exact List.mem_cons_of_mem _ (List.mem_of_mem_take h)
    rw [List.mem_insertionSort] at hx2
    rcases List.mem_append.mp hx2 with h | h
    · obtain ⟨e, he, rfl⟩ := List.mem_map.mp h
      show dotQ v v * dotQ e.embedding e.embedding ≠ 0
      exact mul_ne_zero (ne_of_gt hvn) (ne_of_gt (hstored e he))
    · rw [List.mem_singleton] at h
      rw [h]
      show dotQ v v * dotQ v v ≠ 0
      exact mul_ne_zero (ne_of_gt hvn) (ne_of_gt hvn)

/-- Witness for the amended claim C7: adding `[3, 4]` under id `"b"` to a
fresh two-dimensional index and searching with the same vector returns
`"b"` first with similarity exactly 1. -/
theorem c7_self_search_first_witness :
    (([3, 4] : List ℚ).length = (VectorStore.init 2).dimensions) ∧ 1 ≤ 5 ∧
    ((0 : ℚ) < dotQ [3, 4] [3, 4]) ∧
    (∀ e ∈ (VectorStore.init 2).vectors, (0 : ℚ) < dotQ e.embedding e.embedding) ∧
    (∀ e ∈ (VectorStore.init 2).vectors, (cosineSimilarity [3, 4] e.embedding).val < 1) ∧
    ∃ st' eid r rest, (VectorStore.init 2).addEmbedding "b" [3, 4] = .ok (st', eid) ∧
      st'.search [3, 4] 5 = .ok (r :: rest) ∧ r.chunkId = "b" ∧ r.similarity.val = 1 ∧
      ∀ x ∈ r :: rest, x.similarity.n ≠ 0 := by
  have h1 : ([3, 4] : List ℚ).length = (VectorStore.init 2).dimensions := rfl
  have h2 : 1 ≤ 5 := by norm_num
  have h3 : (0 : ℚ) < dotQ [3, 4] [3, 4] := by norm_num [dotQ]
  have h3b : ∀ e ∈ (VectorStore.init 2).vectors, (0 : ℚ) < dotQ e.embedding e.embedding := by
    intro e he
    simp [VectorStore.init] at he
  have h4 : ∀ e ∈ (VectorStore.init 2).vectors, (cosineSimilarity [3, 4] e.embedding).val < 1 := by
    intro e he
    simp [VectorStore.init] at he
  exact ⟨h1, h2, h3, h3b, h4, c7_self_search_first _ "b" [3, 4] 5 h1 h2 h3 h3b h4⟩

/-- Counterexample to claim C7 as stated: when the index already holds the
identical vector under a different chunk id, `addEmbedding` followed by
`search` with that vector does *not* return the newly added chunk first —
the stable sort keeps the earlier tied entry (`"a"`) ahead of the new one
(`"b"`). -/
theorem c7_counterexample :
    (VectorStore.init 2).addEmbedding "a" [1, 0] =
      .ok (VectorStore.mk 2 [⟨0, "a", [1, 0]⟩], 0) ∧
    (VectorStore.mk 2 [⟨0, "a", [1, 0]⟩]).addEmbedding "b" [1, 0] =
      .ok (VectorStore.mk 2 [⟨0, "a", [1, 0]⟩, ⟨1, "b", [1, 0]⟩], 1) ∧
    ∃ rs, (VectorStore.mk 2 [⟨0, "a", [1, 0]⟩, ⟨1, "b", [1, 0]⟩]).search [1, 0] 5 = .ok rs ∧
      rs.head?.map SearchResult.chunkId = some "a" ∧
      ¬ rs.head?.map SearchResult.chunkId = some "b" := by
  have htie : searchRel ⟨"a", cosineSimilarity [1, 0] [1, 0]⟩
      ⟨"b", cosineSimilarity [1, 0] [1, 0]⟩ := by
    unfold searchRel
    exact (SimVal.sle_iff _ _).mpr (le_refl _)
  refine ⟨rfl, rfl, [⟨"a", cosineSimilarity [1, 0] [1, 0]⟩, ⟨"b", cosineSimilarity [1, 0] [1, 0]⟩],
    ?_, rfl, by decide⟩
  unfold VectorStore.search
  rw [if_neg (by simp), if_neg (by simp)]
  show Except.ok ((List.insertionSort searchRel [⟨"a", cosineSimilarity [1, 0] [1, 0]⟩,
    ⟨"b", cosineSimilarity [1, 0] [1, 0]⟩]).take 5) = _
  simp only [List.insertionSort, List.orderedInsert]
  rw [if_pos htie]
  rfl

theorem dotQ_replicate_zero (n : ℕ) :
    dotQ (List.replicate n (0 : ℚ)) (List.replicate n 0) = 0 := by
  induction n with
  | zero => rfl
  | succ m ih =>
    rw [List.replicate_succ]
    show dotQ ((0 : ℚ) :: List.replicate m 0) ((0 : ℚ) :: List.replicate m 0) = 0
    rw [dotQ, ih]
    ring

/-- Claim C10: for dimension-correct inputs involving a zero norm,
`search` succeeds but the similarity it reports is the IEEE computation
`0/0` — NaN, not a real number in `[-1,1]`.  First part: an all-zero query
vector against any non-empty index makes *every* returned similarity a
`0/0` (model marker `n = 0` with `d = 0`).  Second part: a stored all-zero
embedding produces the same against an ordinary query. -/
theorem c10_nan_similarity :
    (∀ (st : VectorStore) (k : ℕ), st.vectors ≠ [] → 1 ≤ k →
      ∃ rs, st.search (List.replicate st.dimensions 0) k = .ok rs ∧ rs ≠ [] ∧
        ∀ r ∈ rs, r.similarity.n = 0 ∧ r.similarity.d = 0) ∧
    (∃ st1 e1, (VectorStore.init 2).addEmbedding "z" [0, 0] = .ok (st1, e1) ∧
      st1.search [1, 0] 5 = .ok [⟨"z", cosineSimilarity [1, 0] [0, 0]⟩] ∧
      (cosineSimilarity ([1, 0] : List ℚ) [0, 0]).n = 0 ∧
      (cosineSimilarity ([1, 0] : List ℚ) [0, 0]).d = 0) := by
  constructor
  · intro st k hne hk
    have hlen0 : st.vectors.length ≠ 0 := by simpa [List.length_eq_zero] using hne
    unfold VectorStore.search
    rw [if_neg hlen0, if_neg (by simp)]
    refine ⟨_, rfl, ?_, ?_⟩
    · intro h
      have hlen := congrArg List.length h
      rw [List.length_take, List.length_insertionSort, List.length_map] at hlen
      rcases (by simpa using hlen : k = 0 ∨ st.vectors = []) with h0 | h0
      · omega
      · exact hne h0
    · intro r hr
      have hr2 := List.mem_of_mem_take hr
      rw [List.mem_insertionSort] at hr2
      obtain ⟨e, he, rfl⟩ := List.mem_map.mp hr2
      have hz : dotQ (List.replicate st.dimensions (0 : ℚ)) (List.replicate st.dimensions 0) = 0 :=
        dotQ_replicate_zero _
      constructor
      · show dotQ (List.replicate st.dimensions (0 : ℚ)) (List.replicate st.dimensions 0) *
          dotQ e.embedding e.embedding = 0
        rw [hz, zero_mul]
      · exact dotQ_eq_zero_of_self_eq_zero _ hz e.embedding
  · exact ⟨_, _, rfl, rfl, by norm_num [cosineSimilarity, dotQ], by norm_num [cosineSimilarity, dotQ]⟩

/-- Witness for the universal part of claim C10 at a one-entry index. -/
theorem c10_nan_similarity_witness :
    ((VectorStore.mk 2 [⟨0, "v", [3, 4]⟩]).vectors ≠ []) ∧ 1 ≤ 5 ∧
    ∃ rs, (VectorStore.mk 2 [⟨0, "v", [3, 4]⟩]).search
        (List.replicate (VectorStore.mk 2 [⟨0, "v", [3, 4]⟩]).dimensions 0) 5 = .ok rs ∧
      rs ≠ [] ∧ ∀ r ∈ rs, r.similarity.n = 0 ∧ r.similarity.d = 0 :=
  ⟨by simp, by norm_num, c10_nan_similarity.1 _ 5 (by simp) (by norm_num)⟩

/-! ## Content store (`SQLiteStore`, db/sqlite.js) -/

/-- Metadata stored with an item: the caller-supplied map spread together
with the derived `characterCount` (`{...metadata, characterCount: text.length}`). -/
structure ItemMeta where
  user : List (String × String)
  characterCount : ℕ
deriving DecidableEq

/-- A row of the `items` table (`createdAt` is not modelled; no claim
involves time). -/
structure Item where
  id : String
  type : String
  content : Str
  metadata : ItemMeta
deriving DecidableEq

/-- A row of the `chunks` table. -/
structure ChunkRec where
  id : String
  itemId : String
  content : Str
  chunkIndex : ℕ
  embeddingId : Option ℕ
deriving DecidableEq

/-- The SQLite-backed content store; rows are kept in insertion (rowid)
order, which is the order a `WHERE ... IN (...)` query without
`ORDER BY` returns them. -/
structure Store where
  items : List Item
  chunks : List ChunkRec
deriving DecidableEq

def Store.empty : Store := ⟨[], []⟩

/-- Models `insertItem`. -/
def Store.insertItem (st : Store) (it : Item) : Store :=
  { st with items := st.items ++ [it] }

/-- Models `insertChunk`. -/
def Store.insertChunk (st : Store) (c : ChunkRec) : Store :=
  { st with chunks := st.chunks ++ [c] }

/-- Models `getItemById`: `SELECT ... WHERE id = ?` (`null` when absent). -/
def Store.getItemById (st : Store) (id : String) : Option Item :=
  st.items.find? (fun i => i.id == id)

/-- A chunk row joined with its parent item, as returned by
`getChunksByIds` and `getAllChunks`. -/
structure RetChunk where
  id : String
  itemId : String
  content : Str
  chunkIndex : ℕ
  embeddingId : Option ℕ
  itemType : String
  itemMetadata : ItemMeta
deriving DecidableEq

/-- The inner join of a chunk row with its parent item (a chunk whose
item is missing is dropped, as an inner join does). -/
def joinChunk (st : Store) (c : ChunkRec) : Option RetChunk :=
  (st.items.find? (fun i => i.id == c.itemId)).map
    (fun it => ⟨c.id, c.itemId, c.content, c.chunkIndex, c.embeddingId, it.type, it.metadata⟩)

/-- Models `getChunksByIds`: `WHERE c.id IN (...)` joined with `items`; rows come
back in table order — the query has no `ORDER BY`, so the ranking order
of the ids passed in is *not* preserved. -/
def Store.getChunksByIds (st : Store) (ids : List String) : List RetChunk :=
  (st.chunks.filter (fun c => ids.contains c.id)).filterMap (joinChunk st)

/-- Byte-wise comparison of identifiers, standing in for the `TEXT`
ordering SQLite applies in `ORDER BY c.itemId`. -/
def strLtb : List Char → List Char → Bool
  | [], [] => false
  | [], _ :: _ => true
  | _ :: _, [] => false
  | a :: as, b :: bs => if a < b then true else if b < a then false else strLtb as bs

/-- The `ORDER BY c.itemId, c.chunkIndex ASC` ordering of `getAllChunks`. -/
def chunkOrd (a b : RetChunk) : Prop :=
  strLtb a.itemId.data b.itemId.data = true ∨ (a.itemId = b.itemId ∧ a.chunkIndex ≤ b.chunkIndex)

instance : DecidableRel chunkOrd := fun a b => by unfold chunkOrd; infer_instance

/-- Models `getAllChunks`: every chunk joined with its parent item, ordered by
item id then chunk index. -/
def Store.getAllChunks (st : Store) : List RetChunk :=
  (st.chunks.filterMap (joinChunk st)).insertionSort chunkOrd

/-! ## Keyword-search query service (`QueryService.query`, keyword mode) -/

/-- Models `question.split(/\s+/)` without empty tokens (splitting on a
whitespace run may produce one leading empty token in JS; the length
filter below removes it either way, so it is dropped here directly). -/
def splitWs (s : Str) : List Str :=
  (s.splitOnP isWs).filter (fun w => w ≠ [])

/-- The keyword set: the question lower-cased, split on whitespace,
tokens of length at most 2 discarded
(`question.toLowerCase().split(/\s+/).filter(w => w.length > 2)`). -/
def keywords (question : Str) : List Str :=
  (splitWs (toLowerStr question)).filter (fun w => 2 < w.length)

/-- Counts the non-overlapping occurrences of the pattern `k :: ks`
scanning left to right (the value of `content.split(kw).length - 1`). -/
def countOccAux (k : Char) (ks : Str) : Str → ℕ
  | [] => 0
  | c :: rest =>
    if (k :: ks).isPrefixOf (c :: rest) then 1 + countOccAux k ks (rest.drop ks.length)
    else countOccAux k ks rest
termination_by l => l.length
decreasing_by
  · simp only [List.length_cons, List.length_drop]
    omega
  · simp

/-- Models `content.split(keyword).length - 1`: the number of non-overlapping
substring occurrences of the keyword.  (For the empty separator JS
`split` yields one element per character; keywords are never empty
because of the length-2 filter.) -/
def countOccurrences (content kw : Str) : ℕ :=
  match kw with
  | [] => content.length - 1
  | k :: ks => countOccAux k ks content

/-- The score of one chunk: the `keywords.reduce((sum, keyword) =>
sum + (content.split(keyword).length - 1), 0)` loop on the lower-cased
chunk content. -/
def chunkScore (question : Str) (content : Str) : ℕ :=
  (keywords question).foldl (fun sum kw => sum + countOccurrences (toLowerStr content) kw) 0

/-- A chunk together with its keyword score (`{ ...chunk, score }`). -/
structure ScoredChunk where
  chunk : RetChunk
  score : ℕ

/-- Descending order on scores; holds on ties, so the stable sort keeps
the original order of tied chunks like `sort((a, b) => b.score - a.score)`. -/
def scoreRel (a b : ScoredChunk) : Prop := b.score ≤ a.score

instance : DecidableRel scoreRel := fun a b => by unfold scoreRel; infer_instance

instance : IsTotal ScoredChunk scoreRel :=
  ⟨fun a b => (le_total b.score a.score).imp id id⟩

instance : IsTrans ScoredChunk scoreRel :=
  ⟨fun _ _ _ hab hbc => le_trans hbc hab⟩

/-- The scoring pipeline of the keyword-mode `QueryService.query`:
score every stored chunk, keep only positive scores, stable-sort by
descending score and keep the top `topK`. -/
def scoreChunks (chunks : List RetChunk) (question : Str) (topK : ℕ) : List ScoredChunk :=
  (((chunks.map (fun c => ScoredChunk.mk c (chunkScore question c.content))).filter
    (fun s => 0 < s.score)).insertionSort scoreRel).take topK

theorem foldl_add_eq_sum (f : Str → ℕ) (l : List Str) (n : ℕ) :
    l.foldl (fun s kw => s + f kw) n = n + (l.map f).sum := by
  induction l generalizing n with
  | nil => simp
  | cons x xs ih => simp [List.foldl_cons, ih, add_assoc]

theorem chunkScore_eq_sum (question content : Str) :
    chunkScore question content =
      ((keywords question).map (fun kw => countOccurrences (toLowerStr content) kw)).sum := by
  unfold chunkScore
  rw [foldl_add_eq_sum]
  simp

/-- Claim C5: in keyword-search mode every returned chunk carries the
score given by the formula — the sum, over the keyword list (question
lower-cased, split on whitespace, tokens of length at most 2 discarded),
of the non-overlapping substring occurrence counts of each keyword in the
lower-cased chunk content; only chunks with score greater than zero
appear; the results are sorted by non-increasing score and truncated to
the top `topK`. -/
theorem c5_keyword_scoring (chunks : List RetChunk) (question : Str) (topK : ℕ) :
    (∀ s ∈ scoreChunks chunks question topK,
      s.score = ((keywords question).map
        (fun kw => countOccurrences (toLowerStr s.chunk.content) kw)).sum ∧
      0 < s.score ∧ s.chunk ∈ chunks) ∧
    ((scoreChunks chunks question topK).map ScoredChunk.score).Sorted (· ≥ ·) ∧
    (scoreChunks chunks question topK).length ≤ topK := by
  refine ⟨?_, ?_, ?_⟩
  · intro s hs
    have hs2 := List.mem_of_mem_take hs
    rw [List.mem_insertionSort] at hs2
    have hs3 := List.mem_filter.mp hs2
    obtain ⟨c, hc, rfl⟩ := List.mem_map.mp hs3.1
    refine ⟨chunkScore_eq_sum question c.content, ?_, hc⟩
    simpa using hs3.2
  · have hs := List.sorted_insertionSort scoreRel
      ((chunks.map (fun c => ScoredChunk.mk c (chunkScore question c.content))).filter
        (fun s => 0 < s.score))
    have hs2 := hs.sublist (List.take_sublist topK _)
    exact hs2.map _ (fun a b hab => hab)
  · exact List.length_take_le _ _

/-! ## Response shaping and the two query services -/

/-- Models `content.substring(0, 200) + (content.length > 200 ? "..." : "")`. -/
def truncate200 (s : Str) : Str :=
  if 200 < s.length then s.take 200 ++ ['.', '.', '.'] else s

/-- The numbered context block: each chunk content prefixed with its
1-based rank in brackets, joined by blank lines. -/
def buildContext (contents : List Str) : Str :=
  List.intercalate ['\n', '\n']
    (contents.enum.map (fun p => '[' :: (toString (p.1 + 1)).data ++ ']' :: ' ' :: p.2))

/-- The fixed advisory answer of the keyword-mode and empty-store
no-content responses.  (The source string reads "I don~t have any relevant
information to answer that question. Please add some content first."; the
exact text is immaterial to every claim.) -/
def noContentAnswer1 : String :=
  "I do not have any relevant information to answer that question. Please add some content first."

/-- The advisory answer of the empty-search-result no-content response
("... Try different keywords." in the source). -/
def noContentAnswer2 : String :=
  "I do not have any relevant information to answer that question. Try different keywords."

/-- A keyword-mode source view
(`{index, content, itemId, itemType, score, metadata}`). -/
structure KSourceView where
  index : ℕ
  content : Str
  itemId : String
  itemType : String
  score : ℕ
  metadata : ItemMeta

/-- The keyword-mode response (`{answer, sources, confidence}` with a
numeric confidence). -/
structure KResponse where
  answer : String
  sources : List KSourceView
  confidence : ℚ

/-- Keyword-mode `QueryService.query` (the variant that disables
embeddings): score all stored chunks; if none matched return the
no-content response with confidence 0; otherwise build the context, call
the Answer Generator oracle `gen(question, context)` (its failure
propagates) and shape the response, with confidence
`Math.min(1, scoredChunks[0]?.score / 10 || 0)`. -/
def keywordQuery (st : Store) (gen : Str → Str → Except SvcError String)
    (question : Str) (topK : ℕ) : Except SvcError KResponse :=
  let scoredChunks := scoreChunks st.getAllChunks question topK
  if scoredChunks.length = 0 then
    .ok ⟨noContentAnswer1, [], 0⟩
  else
    match gen question (buildContext (scoredChunks.map (fun s => s.chunk.content))) with
    | .error e => .error e
    | .ok answer =>
      .ok ⟨answer,
        scoredChunks.enum.map (fun p =>
          ⟨p.1 + 1, truncate200 p.2.chunk.content, p.2.chunk.itemId, p.2.chunk.itemType,
            p.2.score, p.2.chunk.itemMetadata⟩),
        match scoredChunks with
        | [] => 0
        | s :: _ => min 1 ((s.score : ℚ) / 10)⟩

/-! ## Vector-mode query service (`QueryService.query`, query.js) -/

/-- The full system state a request touches: the content store and the
vector index. -/
structure Sys where
  store : Store
  vs : VectorStore

/-- The similarity `0` (the JS number `0` that `|| 0` substitutes). -/
def zeroSim : SimVal := ⟨0, 1, by norm_num, fun _ => rfl⟩

/-- Models `vectorResult?.similarity || 0`: a missing or falsy similarity — the
number 0 or NaN (`d = 0` in the model) — becomes the number 0. -/
def orZero (s : Option SimVal) : SimVal :=
  match s with
  | none => zeroSim
  | some v => if v.d = 0 then zeroSim else v

/-- The lazy backfill loop of query.js: for every stored chunk without an
embedding, call the Embedding Provider oracle `emb` and add the result to
the index; a per-chunk failure (of the provider or of `addEmbedding`) is
caught, logged and skipped. -/
def backfill (sys : Sys) (emb : Str → Except SvcError (List ℚ)) : VectorStore :=
  sys.store.getAllChunks.foldl
    (fun vs c =>
      if vs.hasEmbedding c.id then vs
      else
        match emb c.content with
        | .ok v =>
          match vs.addEmbedding c.id v with
          | .ok (vs2, _) => vs2
          | .error _ => vs
        | .error _ => vs)
    sys.vs

/-- A vector-mode source view
(`{index, content, itemId, itemType, similarity, metadata}`). -/
structure VSourceView where
  index : ℕ
  content : Str
  itemId : String
  itemType : String
  similarity : SimVal
  metadata : ItemMeta

/-- The vector-mode response. -/
structure VResponse where
  answer : String
  sources : List VSourceView
  confidence : SimVal

/-- Vector-mode `QueryService.query` (query.js): empty-store check, lazy
backfill, question embedding (failure propagates), `search`, no-content
response on zero results, then fetch the chunk records for the returned
ids (store order, not ranking order), attach each record the similarity
found for its id (`vectorResult?.similarity || 0`), build the context,
generate the answer and shape sources and confidence
(`enrichedChunks[0]?.similarity || 0`). -/
def vectorQuery (sys : Sys) (emb : Str → Except SvcError (List ℚ))
    (gen : Str → Str → Except SvcError String) (question : Str) (topK : ℕ) :
    Except SvcError VResponse :=
  let allChunks := sys.store.getAllChunks
  if allChunks.length = 0 then
    .ok ⟨noContentAnswer1, [], zeroSim⟩
  else
    let vs2 := backfill sys emb
    match emb question with
    | .error e => .error e
    | .ok questionEmbedding =>
      match vs2.search questionEmbedding topK with
      | .error e => .error e
      | .ok vectorResults =>
        if vectorResults.length = 0 then
          .ok ⟨noContentAnswer2, [], zeroSim⟩
        else
          let chunks := sys.store.getChunksByIds (vectorResults.map (fun r => r.chunkId))
          let enriched := chunks.map (fun c =>
            (c, orZero ((vectorResults.find? (fun r => r.chunkId == c.id)).map
              (fun r => r.similarity))))
          match gen question (buildContext (enriched.map (fun p => p.1.content))) with
          | .error e => .error e
          | .ok answer =>
            .ok ⟨answer,
              enriched.enum.map (fun p =>
                ⟨p.1 + 1, truncate200 p.2.1.content, p.2.1.itemId, p.2.1.itemType, p.2.2,
                  p.2.1.itemMetadata⟩),
              match enriched with
              | [] => zeroSim
              | p :: _ => if p.2.d = 0 then zeroSim else p.2⟩

/-- Cauchy-Schwarz for the dot-product loop. -/
theorem dotQ_sq_le (a : List ℚ) : ∀ b : List ℚ, dotQ a b ^ 2 ≤ dotQ a a * dotQ b b := by
  induction a with
  | nil => intro b; cases b <;> simp [dotQ]
  | cons x xs ih =>
    intro b
    cases b with
    | nil => simp [dotQ, mul_nonneg (dotQ_self_nonneg (x :: xs))]
    | cons y ys =>
      have h1 := ih ys
      have hxs := dotQ_self_nonneg xs
      have hys := dotQ_self_nonneg ys
      rw [dotQ, dotQ, dotQ]
      rcases eq_or_lt_of_le hxs with hA | hA
      · have hzero : dotQ xs ys = 0 := dotQ_eq_zero_of_self_eq_zero xs hA.symm ys
        rw [hzero, ← hA]
        nlinarith [mul_self_nonneg x, mul_self_nonneg y, hys,
          mul_nonneg (mul_self_nonneg x) hys]
      · nlinarith [sq_nonneg (x * dotQ xs ys - dotQ xs xs * y), h1, hA, hys,
          mul_self_nonneg x, mul_self_nonneg y,
          mul_nonneg (mul_self_nonneg x) (sub_nonneg.mpr h1)]

/-- The cosine similarity of two vectors with positive squared norms is a
well-defined real number in `[-1, 1]`. -/
theorem cosineSimilarity_val_bounds (a b : List ℚ) (ha : 0 < dotQ a a) (hb : 0 < dotQ b b) :
    -1 ≤ (cosineSimilarity a b).val ∧ (cosineSimilarity a b).val ≤ 1 := by
  have hn : (0 : ℝ) < ((dotQ a a * dotQ b b : ℚ) : ℝ) := by exact_mod_cast mul_pos ha hb
  have hsq : ((dotQ a b : ℚ) : ℝ) ^ 2 ≤ ((dotQ a a * dotQ b b : ℚ) : ℝ) := by
    exact_mod_cast dotQ_sq_le a b
  have habs : |((dotQ a b : ℚ) : ℝ)| ≤ Real.sqrt ((dotQ a a * dotQ b b : ℚ) : ℝ) :=
    Real.abs_le_sqrt hsq
  have hval : |(cosineSimilarity a b).val| ≤ 1 := by
    unfold cosineSimilarity SimVal.val
    rw [abs_div, abs_of_nonneg (Real.sqrt_nonneg _)]
    rw [div_le_one (Real.sqrt_pos.mpr hn)]
    exact habs
  exact abs_le.mp hval

/-- Every record returned by `search` is the cosine similarity of the
query against one of the stored vectors. -/
theorem search_result_mem (st : VectorStore) (q : List ℚ) (k : ℕ) (rs : List SearchResult)
    (h : st.search q k = .ok rs) :
    ∀ r ∈ rs, ∃ e ∈ st.vectors, r = ⟨e.chunkId, cosineSimilarity q e.embedding⟩ := by
  intro r hr
  unfold VectorStore.search at h
  split at h
  · injection h with h2
    rw [← h2] at hr
    exact absurd hr (List.not_mem_nil r)
  · split at h
    · exact Except.noConfusion h
    · injection h with h2
      rw [← h2] at hr
      have hr2 := List.mem_of_mem_take hr
      rw [List.mem_insertionSort] at hr2
      obtain ⟨e, he, rfl⟩ := List.mem_map.mp hr2
      exact ⟨e, he, rfl⟩

/-- The scoring pipeline returns a list sorted by descending score. -/
theorem scoreChunks_sorted (chunks : List RetChunk) (question : Str) (topK : ℕ) :
    (scoreChunks chunks question topK).Sorted scoreRel :=
  (List.sorted_insertionSort scoreRel _).sublist (List.take_sublist topK _)

theorem zeroSim_val : zeroSim.val = 0 := by
  unfold zeroSim SimVal.val
  push_cast
  simp

/-- The guard `enrichedChunks[0]?.similarity || 0` is idempotent after the
per-chunk `vectorResult?.similarity || 0`: `orZero` already sends a falsy
similarity to the number 0, so the outer falsy check changes nothing. -/
theorem orZero_idem (X : Option SimVal) :
    (if (orZero X).d = 0 then zeroSim else orZero X) = orZero X := by
  cases X with
  | none => simp [orZero, zeroSim]
  | some v =>
    by_cases hv : v.d = 0
    · simp [orZero, hv, zeroSim]
    · simp [orZero, hv]

/-- Claim C6 (amended): a no-relevant-content response carries confidence
0 in both modes — in vector mode both the empty-store path and the
zero-search-results path return their no-content answers with confidence
0; in keyword mode the confidence of a success response equals
`min(1, topScore/10)`, a rational in `[0, 1]`, where `topScore` is the
maximal score of the retrieved chunks; in vector mode the confidence of a
success response equals the similarity attached by id lookup to the head
of the `getChunksByIds` fetch — the first retrieved chunk in *store
order*, not the top-ranked result — with 0 substituted when that chunk is
missing or its similarity falsy; consequently it is either 0 or the
similarity of some search result, and, when the question embedding and
all indexed vectors have nonzero norm, a real number in `[-1, 1]`, not
necessarily in `[0, 1]`. -/
theorem c6_confidence :
    (∀ (st : Store) (gen : Str → Str → Except SvcError String) (question : Str) (topK : ℕ)
      (s : ScoredChunk) (rest : List ScoredChunk) (ans : String),
      scoreChunks st.getAllChunks question topK = s :: rest →
      gen question (buildContext ((s :: rest).map (fun x => x.chunk.content))) = .ok ans →
      ∃ resp, keywordQuery st gen question topK = .ok resp ∧
        resp.confidence = min 1 ((s.score : ℚ) / 10) ∧
        0 ≤ resp.confidence ∧ resp.confidence ≤ 1 ∧
        ∀ x ∈ s :: rest, x.score ≤ s.score) ∧
    (∀ (st : Store) (gen : Str → Str → Except SvcError String) (question : Str) (topK : ℕ),
      scoreChunks st.getAllChunks question topK = [] →
      keywordQuery st gen question topK = .ok ⟨noContentAnswer1, [], 0⟩) ∧
    (∀ (sys : Sys) (emb : Str → Except SvcError (List ℚ))
      (gen : Str → Str → Except SvcError String) (question : Str) (topK : ℕ),
      sys.store.getAllChunks.length = 0 →
      vectorQuery sys emb gen question topK = .ok ⟨noContentAnswer1, [], zeroSim⟩ ∧
      zeroSim.val = 0) ∧
    (∀ (sys : Sys) (emb : Str → Except SvcError (List ℚ))
      (gen : Str → Str → Except SvcError String) (question : Str) (topK : ℕ)
      (qv : List ℚ),
      sys.store.getAllChunks.length ≠ 0 →
      emb question = .ok qv →
      (backfill sys emb).search qv topK = .ok [] →
      vectorQuery sys emb gen question topK = .ok ⟨noContentAnswer2, [], zeroSim⟩ ∧
      zeroSim.val = 0) ∧
    (∀ (sys : Sys) (emb : Str → Except SvcError (List ℚ))
      (gen : Str → Str → Except SvcError String) (question : Str) (topK : ℕ)
      (qv : List ℚ) (results : List SearchResult) (ans : String),
      sys.store.getAllChunks.length ≠ 0 →
      emb question = .ok qv →
      (backfill sys emb).search qv topK = .ok results →
      results.length ≠ 0 →
      (∀ c, gen question c = .ok ans) →
      ∃ resp, vectorQuery sys emb gen question topK = .ok resp ∧
        resp.confidence =
          (match (sys.store.getChunksByIds (results.map (fun r => r.chunkId))).head? with
            | none => zeroSim
            | some c => orZero ((results.find? (fun r => r.chunkId == c.id)).map
                (fun r => r.similarity))) ∧
        (resp.confidence = zeroSim ∨ ∃ r ∈ results, resp.confidence = r.similarity) ∧
        (0 < dotQ qv qv →
          (∀ e ∈ (backfill sys emb).vectors, 0 < dotQ e.embedding e.embedding) →
          -1 ≤ resp.confidence.val ∧ resp.confidence.val ≤ 1)) := by
  refine ⟨?_, ?_, ?_, ?_, ?_⟩
  · intro st gen question topK s rest ans h1 h2
    simp only [keywordQuery, h1, List.length_cons, Nat.succ_ne_zero, if_false, h2]
    refine ⟨_, rfl, rfl, ?_, min_le_left _ _, ?_⟩
    · exact le_min (by norm_num) (by positivity)
    · have hsorted := scoreChunks_sorted st.getAllChunks question topK
      rw [h1] at hsorted
      intro x hx
      rcases List.mem_cons.mp hx with h | h
      · rw [h]
      · exact (List.pairwise_cons.mp hsorted).1 x h
  · intro st gen question topK h
    simp only [keywordQuery, h, List.length_nil, if_true]
  · intro sys emb gen question topK h
    refine ⟨?_, zeroSim_val⟩
    simp only [vectorQuery, h, if_true]
  · intro sys emb gen question topK qv hne hq hs
    refine ⟨?_, zeroSim_val⟩
    simp only [vectorQuery, if_neg hne, hq, hs, List.length_nil, if_pos rfl, if_true]
  · intro sys emb gen question topK qv results ans hne hq hs hr hgen
    simp only [vectorQuery, if_neg hne, hq, hs, if_neg hr, hgen]
    have hform : (match (sys.store.getChunksByIds (results.map (fun r => r.chunkId))).map
        (fun c => (c, orZero ((results.find? (fun r => r.chunkId == c.id)).map
          (fun r => r.similarity)))) with
        | [] => zeroSim
        | p :: _ => if p.2.d = 0 then zeroSim else p.2) =
        (match (sys.store.getChunksByIds (results.map (fun r => r.chunkId))).head? with
          | none => zeroSim
          | some c => orZero ((results.find? (fun r => r.chunkId == c.id)).map
              (fun r => r.similarity))) := by
      cases sys.store.getChunksByIds (results.map (fun r => r.chunkId)) with
      | nil => rfl
      | cons c cs => exact orZero_idem _
    refine ⟨_, rfl, hform, ?_⟩
    have hconf : (match (sys.store.getChunksByIds (results.map (fun r => r.chunkId))).map
        (fun c => (c, orZero ((results.find? (fun r => r.chunkId == c.id)).map
          (fun r => r.similarity)))) with
        | [] => zeroSim
        | p :: _ => if p.2.d = 0 then zeroSim else p.2) = zeroSim ∨
        ∃ r ∈ results, (match (sys.store.getChunksByIds (results.map (fun r => r.chunkId))).map
        (fun c => (c, orZero ((results.find? (fun r => r.chunkId == c.id)).map
          (fun r => r.similarity)))) with
        | [] => zeroSim
        | p :: _ => if p.2.d = 0 then zeroSim else p.2) = r.similarity := by
      cases hE : (sys.store.getChunksByIds (results.map (fun r => r.chunkId))).map
          (fun c => (c, orZero ((results.find? (fun r => r.chunkId == c.id)).map
            (fun r => r.similarity)))) with
      | nil => exact Or.inl rfl
      | cons p ps =>
        have hp : p ∈ (sys.store.getChunksByIds (results.map (fun r => r.chunkId))).map
            (fun c => (c, orZero ((results.find? (fun r => r.chunkId == c.id)).map
              (fun r => r.similarity)))) := by
          rw [hE]
          exact List.mem_cons_self p ps
        obtain ⟨c, hc, hpc⟩ := List.mem_map.mp hp
        cases hfind : results.find? (fun r => r.chunkId == c.id) with
        | none =>
          left
          rw [← hpc]
          simp [orZero, hfind, zeroSim]
        | some r =>
          by_cases hd : r.similarity.d = 0
          · left
            rw [← hpc]
            simp [orZero, hfind, hd, zeroSim]
          · right
            refine ⟨r, List.mem_of_find?_eq_some hfind, ?_⟩
            rw [← hpc]
            simp [orZero, hfind, hd]
    refine ⟨hconf, ?_⟩
    intro hqv hvec
    rcases hconf with h | ⟨r, hrmem, h⟩
    · rw [h, zeroSim_val]
      norm_num
    · rw [h]
      obtain ⟨e, he, rfl⟩ := search_result_mem _ _ _ _ hs r hrmem
      exact cosineSimilarity_val_bounds qv e.embedding hqv (hvec e he)

/-- Counterexample to claim C6 as stated: a success-with-context
vector-mode response whose confidence is the cosine similarity −1 (query
vector opposite to the stored one) — not a number in `[0, 1]`. -/
theorem c6_counterexample :
    ∃ resp, vectorQuery
        ⟨⟨[⟨"i1", "text", ['x'], ⟨[], 1⟩⟩], [⟨"c1", "i1", ['x'], 0, none⟩]⟩, VectorStore.init 2⟩
        (fun t => if t = ['x'] then .ok [3, 4] else .ok [-3, -4])
        (fun _ _ => .ok "ans") ['q'] 5 = .ok resp ∧
      resp.confidence.val = -1 ∧ resp.confidence.val < 0 := by
  have hd : (cosineSimilarity ([-3, -4] : List ℚ) [3, 4]).d = -25 := by
    norm_num [cosineSimilarity, dotQ]
  have hn : (cosineSimilarity ([-3, -4] : List ℚ) [3, 4]).n = 625 := by
    norm_num [cosineSimilarity, dotQ]
  have hdne : (cosineSimilarity ([-3, -4] : List ℚ) [3, 4]).d ≠ 0 := by
    rw [hd]; norm_num
  have hval : (cosineSimilarity ([-3, -4] : List ℚ) [3, 4]).val = -1 := by
    unfold SimVal.val
    rw [hd, hn]
    rw [show ((625 : ℚ) : ℝ) = 25 ^ 2 by norm_num]
    rw [Real.sqrt_sq (by norm_num : (0 : ℝ) ≤ 25)]
    push_cast
    norm_num
  refine ⟨⟨"ans", [⟨1, ['x'], "i1", "text", cosineSimilarity [-3, -4] [3, 4], ⟨[], 1⟩⟩],
    cosineSimilarity [-3, -4] [3, 4]⟩, ?_, hval, by rw [hval]; norm_num⟩
  simp [vectorQuery, Store.getAllChunks, Store.getChunksByIds, joinChunk, backfill,
    VectorStore.hasEmbedding, VectorStore.addEmbedding, VectorStore.search, VectorStore.init,
    orZero, hdne, List.insertionSort, List.orderedInsert, List.find?, truncate200]

/-- Witness for the amended claim C6 (no-content paths): on an empty store
the vector-mode query returns the first no-content response with
confidence 0, and on a non-empty store whose backfill fails (so the index
stays empty and `search` returns zero results) it returns the second
no-content response, also with confidence 0. -/
theorem c6_confidence_witness :
    ((⟨Store.empty, VectorStore.init 2⟩ : Sys).store.getAllChunks.length = 0) ∧
    (vectorQuery ⟨Store.empty, VectorStore.init 2⟩ (fun _ => .ok [1, 0])
        (fun _ _ => .ok "ans") ['q'] 5 = .ok ⟨noContentAnswer1, [], zeroSim⟩ ∧ zeroSim.val = 0) ∧
    ((⟨⟨[⟨"i1", "text", ['x'], ⟨[], 1⟩⟩], [⟨"c1", "i1", ['x'], 0, none⟩]⟩,
        VectorStore.init 2⟩ : Sys).store.getAllChunks.length ≠ 0) ∧
    (vectorQuery
        ⟨⟨[⟨"i1", "text", ['x'], ⟨[], 1⟩⟩], [⟨"c1", "i1", ['x'], 0, none⟩]⟩, VectorStore.init 2⟩
        (fun t => if t = ['x'] then .error (.provider "e") else .ok [1, 0])
        (fun _ _ => .ok "ans") ['q'] 5 = .ok ⟨noContentAnswer2, [], zeroSim⟩ ∧ zeroSim.val = 0) := by
  refine ⟨rfl, c6_confidence.2.2.1 ⟨Store.empty, VectorStore.init 2⟩ (fun _ => .ok [1, 0])
    (fun _ _ => .ok "ans") ['q'] 5 rfl, by decide, ?_⟩
  exact c6_confidence.2.2.2.1 _ _ (fun _ _ => .ok "ans") ['q'] 5 [1, 0] (by decide) rfl rfl

/-! ## Eager ingestion (`IngestionService.ingestText` / `processContent`) -/

/-- The chunk-storing loop of `processContent`: for each chunk, add its
embedding to the vector index (a thrown dimension mismatch aborts the
loop and propagates, keeping every mutation already made), then insert
the chunk row with the returned embedding id.  A missing embedding (the
provider returned fewer vectors than chunks) is modelled as the empty
vector, which the dimension check rejects like the `undefined.length`
crash in JS. -/
def storeChunksLoop (itemId : String) (embeddings : List (List ℚ)) :
    Sys → ℕ → List Str → Sys × Option SvcError
  | sys, _, [] => (sys, none)
  | sys, i, c :: rest =>
    match sys.vs.addEmbedding (itemId ++ "_chunk_" ++ toString i) (embeddings.getD i []) with
    | .error e => (sys, some e)
    | .ok (vs2, eid) =>
      storeChunksLoop itemId embeddings
        ⟨sys.store.insertChunk ⟨itemId ++ "_chunk_" ++ toString i, itemId, c, i, some eid⟩, vs2⟩
        (i + 1) rest

/-- Models `processContent`: chunk the text, ask the Embedding Provider for all
embeddings at once (`generateEmbeddings`; its failure propagates before
any chunk is stored), then run the storing loop.  `none` means the
chunking loop diverged (the JS call never returns); otherwise the state
reached is paired with the error that aborted processing, if any. -/
def processContent (sys : Sys) (itemId : String) (text : Str)
    (embAll : List Str → Except SvcError (List (List ℚ))) : Option (Sys × Option SvcError) :=
  match chunkText cfgMain text with
  | none => none
  | some chunks =>
    match embAll chunks with
    | .error e => some (sys, some e)
    | .ok embeddings => some (storeChunksLoop itemId embeddings sys 0 chunks)

/-- Models `ingestText`: insert the raw item (with the `characterCount` metadata
field) first, then chunk and embed.  A failure in `processContent`
propagates to the caller as the error outcome, with all mutations made so
far — in particular the inserted item — kept. -/
def ingestText (sys : Sys) (itemId : String) (text : Str) (md : List (String × String))
    (embAll : List Str → Except SvcError (List (List ℚ))) :
    Option (Sys × Except SvcError String) :=
  match processContent
      ⟨sys.store.insertItem ⟨itemId, "text", text, ⟨md, text.length⟩⟩, sys.vs⟩
      itemId text embAll with
  | none => none
  | some (sys2, some e) => some (sys2, .error e)
  | some (sys2, none) => some (sys2, .ok itemId)

theorem storeChunksLoop_preserves_items (itemId : String) (embeddings : List (List ℚ)) :
    ∀ (chunks : List Str) (sys : Sys) (i : ℕ),
      (storeChunksLoop itemId embeddings sys i chunks).1.store.items = sys.store.items
  | [], _, _ => rfl
  | c :: rest, sys, i => by
    rw [storeChunksLoop]
    split
    · rfl
    · rw [storeChunksLoop_preserves_items itemId embeddings rest _ (i + 1)]
      rfl

theorem processContent_preserves_items (sys : Sys) (itemId : String) (text : Str)
    (embAll : List Str → Except SvcError (List (List ℚ))) (sys2 : Sys) (r : Option SvcError)
    (h : processContent sys itemId text embAll = some (sys2, r)) :
    sys2.store.items = sys.store.items := by
  unfold processContent at h
  split at h
  · exact Option.noConfusion h
  · split at h
    · injection h with h2
      injection h2 with h3 h4
      rw [← h3]
    · injection h with h2
      rw [show sys2 = (storeChunksLoop itemId _ sys 0 _).1 from by rw [h2]]
      exact storeChunksLoop_preserves_items _ _ _ _ _

/-- Claim C9: ingestion is not atomic — `ingestText` persists the item
(with its `characterCount` metadata) before chunk processing begins, so
when chunking, embedding or chunk storage fails and the error propagates
to the caller, the item is still stored; in particular an item with zero
chunks is reachable (second part: a wholesale embedding failure leaves
the item retrievable by `getItemById` with no chunk rows at all). -/
theorem c9_item_persists_on_failure :
    (∀ (sys : Sys) (itemId : String) (text : Str) (md : List (String × String))
      (embAll : List Str → Except SvcError (List (List ℚ))) (sys2 : Sys) (e : SvcError),
      ingestText sys itemId text md embAll = some (sys2, .error e) →
      (⟨itemId, "text", text, ⟨md, text.length⟩⟩ : Item) ∈ sys2.store.items) ∧
    (∃ sys2, ingestText ⟨Store.empty, VectorStore.init 2⟩ "i1" ['h', 'i'] []
        (fun _ => .error (.provider "down")) = some (sys2, .error (.provider "down")) ∧
      sys2.store.getItemById "i1" = some ⟨"i1", "text", ['h', 'i'], ⟨[], 2⟩⟩ ∧
      sys2.store.chunks = []) := by
  constructor
  · intro sys itemId text md embAll sys2 e h
    unfold ingestText at h
    rcases hpc : processContent
        ⟨sys.store.insertItem ⟨itemId, "text", text, ⟨md, text.length⟩⟩, sys.vs⟩
        itemId text embAll with _ | ⟨sys3, r⟩
    · rw [hpc] at h
      exact Option.noConfusion h
    · rw [hpc] at h
      cases r with
      | none => simp at h
      | some e2 =>
        simp at h
        obtain ⟨h3, h4⟩ := h
        subst h3
        have hitems := processContent_preserves_items _ _ _ _ _ _ hpc
        rw [hitems]
        simp [Store.insertItem]
  · exact ⟨_, rfl, rfl, rfl⟩

/-- Witness for claim C9 at a concrete failing ingestion: the embedding
provider fails wholesale, the error propagates, and the item is still in
the store. -/
theorem c9_item_persists_on_failure_witness :
    ∃ sys2, ingestText ⟨Store.empty, VectorStore.init 2⟩ "i1" ['h', 'i'] []
        (fun _ => .error (.provider "down")) = some (sys2, .error (.provider "down")) ∧
      (⟨"i1", "text", ['h', 'i'], ⟨[], 2⟩⟩ : Item) ∈ sys2.store.items :=
  ⟨_, rfl, c9_item_persists_on_failure.1 ⟨Store.empty, VectorStore.init 2⟩ "i1" ['h', 'i'] []
    (fun _ => .error (.provider "down")) _ _ rfl⟩
